import Mathlib

/-!
Verification of the terseparse type-conversion library (src/terseparse/types.py).

Each converter class's `convert` method is shallowly embedded as a Lean
function `String → Except String α` (an `ArgumentTypeError` raised by
`Type.fail` becomes `Except.error msg`).  Python regular-expression helpers
used by the source are embedded as explicit character-list scanners with the
same semantics as `re.findall` / `re.split` on the concrete patterns used.
-/

set_option autoImplicit false

namespace Terseparse

/-- Embedding of `Type.fail`: the message reads, like the source format
string, as the offending value, the type name and the reason. -/
def failFmt (valStr name message : String) : String :=
  "'" ++ valStr ++ "' is an invalid <" ++ name ++ ">. " ++ message

/-- Python `\s` on ASCII strings: space, tab, newline, carriage return,
vertical tab, form feed. -/
def isPySpace (c : Char) : Bool :=
  c = ' ' || c = '\t' || c = '\n' || c = '\r' || c = '\x0b' || c = '\x0c'

/-- A character matched by the separator class of `list_regex`, the compiled
pattern matching maximal runs of characters that are not commas, semicolons
or whitespace. -/
def isListSep (c : Char) : Bool :=
  c = ',' || c = ';' || isPySpace c

/-- Split a character list at every character satisfying `p` (one split per
separator character, keeping empty segments). -/
def splitChars (p : Char → Bool) : List Char → List (List Char)
  | [] => [[]]
  | c :: cs =>
    if p c then [] :: splitChars p cs
    else
      match splitChars p cs with
      | [] => [[c]]
      | t :: ts => (c :: t) :: ts

/-- Embedding of `list_regex.findall(val)`: the maximal runs of
non-separator characters of `val`, i.e. the nonempty segments between
separator characters. -/
def listRegexFindall (val : String) : List String :=
  ((splitChars isListSep val.toList).filter (fun l => !l.isEmpty)).map
    (fun l => String.mk l)

/-- Model of `class Bool` exactly as the source has it: the class body binds
`__init__` twice, so the second definition (taking `val` and returning the
membership test) shadows the first, and the attribute `true_vals` is never
assigned on any instance.  The attribute read is modelled as an `Option`
that is `none` because no executed code ever sets it. -/
def boolTrueVals : Option (List String) := none

/-- Message of the `AttributeError` raised when the shadowed initializer
body reads the never-assigned `true_vals` attribute. -/
def boolAttrError : String :=
  "AttributeError: Bool instance has no attribute true_vals"

/-- Embedding of the only executable conversion path of `class Bool`: its
sole method body is `return val.lower() in self.true_vals`, which reads the
unset attribute, so every invocation fails.  (The class also has no
`convert` method at all, so `Type.__call__` would fail on the attribute
`convert` in the same way.) -/
def boolConvert (val : String) : Except String Bool :=
  match boolTrueVals with
  | none => .error boolAttrError
  | some tv => .ok (tv.contains val.toLower)

/-- Numeric value of a decimal digit character. -/
def charDigit (c : Char) : Nat := c.toNat - 48

/-- Embedding of Python `int(s, 10)` on a sign-stripped character list:
the digits must be nonempty and all decimal; the value is the base-10 fold. -/
def parseDecMag (l : List Char) : Option Nat :=
  if l.isEmpty then none
  else if l.all Char.isDigit then
    some (l.foldl (fun a c => 10 * a + charDigit c) 0)
  else none

/-- Numeric value of a hexadecimal digit character, when it is one. -/
def hexVal (c : Char) : Option Nat :=
  if c.isDigit then some (c.toNat - 48)
  else if 'a' ≤ c && c ≤ 'f' then some (c.toNat - 87)
  else if 'A' ≤ c && c ≤ 'F' then some (c.toNat - 55)
  else none

/-- Python `int(s, 16)` allows an optional `0x` or `0X` marker after the
sign; this removes it. -/
def dropHexMark : List Char → List Char
  | '0' :: c :: rest => if c = 'x' || c = 'X' then rest else '0' :: c :: rest
  | l => l

/-- Embedding of Python `int(s, 16)` on a sign-stripped character list. -/
def parseHexMag (l : List Char) : Option Nat :=
  let l2 := dropHexMark l
  if l2.isEmpty then none
  else
    match l2.mapM hexVal with
    | none => none
    | some ds => some (ds.foldl (fun a d => 16 * a + d) 0)

/-- Sign handling shared by Python `int(s, base)`: an optional leading
`-` or `+`, then the magnitude. -/
def parseSigned (mag : List Char → Option Nat) (l : List Char) : Option Int :=
  match l with
  | [] => none
  | c :: rest =>
    if c = '-' then (mag rest).map (fun n => -(Int.ofNat n))
    else if c = '+' then (mag rest).map (fun n => Int.ofNat n)
    else (mag l).map (fun n => Int.ofNat n)

/-- Embedding of Python `int(val, 10)` as used by `Int._convert`. -/
def pyIntDec (s : String) : Option Int := parseSigned parseDecMag s.toList

/-- Embedding of Python `int(val, 16)` as used by `Int._convert`. -/
def pyIntHex (s : String) : Option Int := parseSigned parseHexMag s.toList

/-- Embedding of `Int._convert`: try base 10, and on its `ValueError`
retry base 16. -/
def intUnderlying (s : String) : Option Int :=
  match pyIntDec s with
  | some v => some v
  | none => pyIntHex s

/-- Domain text of `Int.__init__`, generated from whichever bounds are
present. -/
def intDomain (minval maxval : Option Int) : String :=
  match minval, maxval with
  | some mn, some mx => toString mn ++ " <= val < " ++ toString mx
  | some mn, none => toString mn ++ " <= val"
  | none, some mx => "val < " ++ toString mx
  | none, none => ""

/-- Error message of `Int.__init__`. -/
def intErrorMessage (minval maxval : Option Int) : String :=
  "Must satisfy " ++ intDomain minval maxval

/-- Bound check of `Int.convert`: true when the parsed value violates the
optional inclusive lower bound or the optional exclusive upper bound. -/
def intOutOfRange (minval maxval : Option Int) (v : Int) : Bool :=
  (match minval with | some mn => decide (v < mn) | none => false) ||
  (match maxval with | some mx => decide (v ≥ mx) | none => false)

/-- Embedding of `Int.convert`: parse via `Int._convert` (failure raises
through `Type.fail`), then check the bounds. -/
def intConvert (minval maxval : Option Int) (valStr : String) : Except String Int :=
  match intUnderlying valStr with
  | none => .error (failFmt valStr "int" (intErrorMessage minval maxval))
  | some v =>
    if intOutOfRange minval maxval v then
      .error (failFmt valStr "int" (intErrorMessage minval maxval))
    else .ok v

/-- Little-endian decimal digits of `n`, with explicit fuel to keep the
recursion structural (fuel `n` is always sufficient). -/
def decDigitsRev : Nat → Nat → List Nat
  | 0, _ => []
  | fuel + 1, n => if n = 0 then [] else (n % 10) :: decDigitsRev fuel (n / 10)

/-- Canonical decimal character list of a natural number, as Python
`str` prints it. -/
def natStrChars (n : Nat) : List Char :=
  if n = 0 then ['0'] else ((decDigitsRev n n).reverse.map Nat.digitChar)

/-- Embedding of Python `str(v)` for an integer: optional minus sign and
the decimal digits. -/
def pyStr (v : Int) : String :=
  if v < 0 then String.mk ('-' :: natStrChars v.natAbs)
  else String.mk (natStrChars v.natAbs)

/-- A character of the separator class of `kv_regex`, the compiled pattern
of runs of colons and equals signs. -/
def isKVSep (c : Char) : Bool := c = ':' || c = '='

/-- Scanner with the semantics of `re.split` on a pattern matching runs of
`p`-characters: a run of consecutive separator characters produces a single
split, and boundary runs leave empty segments at the ends.  `acc` holds the
current segment reversed and `sawSep` records whether the previous character
was part of a separator run. -/
def runSplitGo (p : Char → Bool) : List Char → List Char → Bool → List (List Char)
  | [], acc, _ => [acc.reverse]
  | c :: cs, acc, sawSep =>
    if p c then
      if sawSep then runSplitGo p cs acc true
      else acc.reverse :: runSplitGo p cs [] true
    else runSplitGo p cs (c :: acc) false

/-- Embedding of `self.kv_regex.split(pair)`: split `pair` on runs of `:`
or `=` characters. -/
def kvRegexSplit (pair : String) : List String :=
  (runSplitGo isKVSep pair.toList [] false).map (fun l => String.mk l)

/-- Lookup in an association list, modelling Python dictionary read. -/
def assocLookup {β : Type} (k : String) : List (String × β) → Option β
  | [] => none
  | (k', v) :: rest => if k' = k then some v else assocLookup k rest

/-- Store into an association list, modelling Python dictionary write:
an existing binding is overwritten in place, a new one is appended. -/
def assocInsert {β : Type} (k : String) (v : β) :
    List (String × β) → List (String × β)
  | [] => [(k, v)]
  | (k', v') :: rest =>
    if k' = k then (k, v) :: rest else (k', v') :: assocInsert k v rest

/-- The exceptions that can escape `Dict._convert` and reach the handlers
of `Dict.convert`: the `ValueError` of unpacking a split that does not have
exactly two parts, the `AssertionError` of an unknown key, and an
`ArgumentTypeError` propagating from an inner converter. -/
inductive DictErr where
  | structural (pair : String)
  | unknownKey (pair : String)
  | inner (msg : String)

/-- Processing of one token inside the loop of `Dict._convert`: split the
token on runs of `:` or `=`, unpack into exactly a key and a value string,
require the key to be a validator key, and convert the value with the
key's converter. -/
def dictPair {α : Type} (vals : List (String × (String → Except String α)))
    (pair : String) : Except DictErr (String × α) :=
  match kvRegexSplit pair with
  | [k, v] =>
    match assocLookup k vals with
    | none => .error (.unknownKey pair)
    | some conv =>
      match conv v with
      | .ok value => .ok (k, value)
      | .error e => .error (.inner e)
  | _ => .error (.structural pair)

/-- The loop of `Dict._convert` over the tokens: each converted pair is
stored in the result mapping; when the key is already bound, a warning
entry (key, new value, old value) mirroring the `log.warn` call is emitted
and the new value overwrites the old. -/
def dictGo {α : Type} (vals : List (String × (String → Except String α))) :
    List String → List (String × α) → List (String × α × α) →
    List (String × α × α) × Except DictErr (List (String × α))
  | [], obj, warns => (warns, .ok obj)
  | pair :: rest, obj, warns =>
    match dictPair vals pair with
    | .error e => (warns, .error e)
    | .ok (k, value) =>
      let warns' :=
        match assocLookup k obj with
        | some old => warns ++ [(k, value, old)]
        | none => warns
      dictGo vals rest (assocInsert k value obj) warns'

/-- Observable outcome of `Dict.convert`: the lines written to standard
output by its `print` statement, the overwrite warnings logged, and the
returned mapping or raised error. -/
structure DictOutcome (α : Type) where
  printed : List String
  warnings : List (String × α × α)
  result : Except String (List (String × α))

/-- Embedding of `Dict.convert`: it first executes `print(val)`, then runs
`Dict._convert` on the tokens of `val`; a `ValueError` or `AssertionError`
becomes a failure with the converter description, an inner
`ArgumentTypeError` has its message chained onto the description. -/
def dictConvert {α : Type} (description : String)
    (vals : List (String × (String → Except String α))) (val : String) :
    DictOutcome α :=
  match dictGo vals (listRegexFindall val) [] [] with
  | (warns, .ok obj) => ⟨[val], warns, .ok obj⟩
  | (warns, .error (.structural _)) =>
    ⟨[val], warns, .error (failFmt val "dict" description)⟩
  | (warns, .error (.unknownKey _)) =>
    ⟨[val], warns, .error (failFmt val "dict" description)⟩
  | (warns, .error (.inner e)) =>
    ⟨[val], warns, .error (failFmt val "dict" (description ++ "\n" ++ e))⟩

/-- The loop of `List.convert`: apply the inner converter to each token,
appending results in order; the first inner failure aborts. -/
def listConvertTokens {α : Type} (typ : String → Except String α) :
    List String → List α → Except String (List α)
  | [], acc => .ok acc.reverse
  | k :: ks, acc =>
    match typ k with
    | .ok v => listConvertTokens typ ks (v :: acc)
    | .error e => .error e

/-- Embedding of `List.convert`: tokenize with `list_regex`, convert each
token, and on an inner failure fail with the inner message chained onto the
description (which equals the name in the source). -/
def listConvert {α : Type} (typ : String → Except String α)
    (name val : String) : Except String (List α) :=
  match listConvertTokens typ (listRegexFindall val) [] with
  | .ok seq => .ok seq
  | .error e => .error (failFmt val name (name ++ "\n" ++ e))

/-- The loop of `Set.convert`: apply the inner converter to each token and
add each result to the set; the first inner failure aborts. -/
def setConvertTokens {α : Type} [DecidableEq α]
    (typ : String → Except String α) :
    List String → Finset α → Except String (Finset α)
  | [], acc => .ok acc
  | k :: ks, acc =>
    match typ k with
    | .ok v => setConvertTokens typ ks (insert v acc)
    | .error e => .error e

/-- Embedding of `Set.convert`: like `List.convert` but collecting into a
set. -/
def setConvert {α : Type} [DecidableEq α] (typ : String → Except String α)
    (name val : String) : Except String (Finset α) :=
  match setConvertTokens typ (listRegexFindall val) ∅ with
  | .ok seq => .ok seq
  | .error e => .error (failFmt val name (name ++ "\n" ++ e))

/-- A branch of an `Or` converter: its conversion function together with
its name and description attributes. -/
structure OrBranch (α : Type) where
  conv : String → Except String α
  name : String
  description : String

/-- The loop of `Or.convert`: return the first branch result that does not
raise `ArgumentTypeError`. -/
def orTry {α : Type} (val : String) : List (OrBranch α) → Option α
  | [] => none
  | b :: bs =>
    match b.conv val with
    | .ok r => some r
    | .error _ => orTry val bs

/-- The `name` attribute built by `Or.__init__`: branch names joined by a
vertical bar. -/
def orName {α : Type} (bs : List (OrBranch α)) : String :=
  String.intercalate "|" (bs.map OrBranch.name)

/-- The `description` attribute built by `Or.__init__`: branch descriptions
joined by " or ". -/
def orDescription {α : Type} (bs : List (OrBranch α)) : String :=
  String.intercalate " or " (bs.map OrBranch.description)

/-- Embedding of `Or.convert` over an already-flattened branch list. -/
def orConvert {α : Type} (bs : List (OrBranch α)) (val : String) :
    Except String α :=
  match orTry val bs with
  | some r => .ok r
  | none => .error (failFmt val (orName bs) ("Must be " ++ orDescription bs))

/-- The `FILE_MODES` table of the source. -/
def FILE_MODES : List (String × String) :=
  [("r", "readable"), ("w", "writable"), ("rw", "readable and writeable")]

/-- Embedding of `File.convert` with the filesystem made explicit: the
builtin `file(val, mode)` call in read mode is modelled as a partial map
`fs` from paths to handles that is defined exactly on the paths that exist
and are readable; on an undefined path the `IOError` is caught and turned
into the descriptive failure of `File.convert`. -/
def fileConvert {η : Type} (fs : String → Option η) (modeDescr : String)
    (val : String) : Except String η :=
  match fs val with
  | some h => .ok h
  | none => .error (failFmt val "file" ("Must be a " ++ modeDescr ++ " file"))

/-- The mode description stored by `File.__init__` for a mode key. -/
def fileModeDescr (mode : String) : String :=
  match assocLookup mode FILE_MODES with
  | some d => d
  | none => ""

/-- Syntax of constructed converter values, used to verify the flattening
performed by `Or.__init__`.  Each constructor mirrors one converter class;
`orT` holds the `types` attribute of an `Or` value. -/
inductive PyTy where
  | keyword (key : String)
  | strT
  | boolT
  | intT (minval maxval : Option Int)
  | setT (inner : PyTy)
  | listT (inner : PyTy)
  | dictT (fields : List String)
  | fileT (mode : String)
  | orT (types : List PyTy)

/-- Whether a converter value is an `Or`. -/
def isOrTy : PyTy → Bool
  | .orT _ => true
  | _ => false

/-- The flattening loop of `Or.__init__`: an argument that is an `Or`
contributes its `types` list, any other argument contributes itself. -/
def orFlatten (types : List PyTy) : List PyTy :=
  types.flatMap (fun t =>
    match t with
    | .orT bs => bs
    | t => [t])

/-- Embedding of the `Or` constructor: the stored `types` attribute is the
flattened argument list. -/
def mkOr (types : List PyTy) : PyTy := .orT (orFlatten types)

/-- An `Or` value is flat when none of its direct branches is an `Or`;
every non-`Or` value is trivially flat. -/
def flatOr : PyTy → Bool
  | .orT bs => bs.all (fun b => !isOrTy b)
  | _ => true

/-- Embedding of `Str.convert`: identity on strings. -/
def strConvert : String → Except String String := fun val => .ok val

/-- Per-token results of applying an inner converter to a token list:
`some` of the ordered result list when every token converts, `none` as soon
as one fails. -/
def tokenResults {α : Type} (typ : String → Except String α) :
    List String → Option (List α)
  | [] => some []
  | k :: ks =>
    match typ k with
    | .ok v => (tokenResults typ ks).map (fun vs => v :: vs)
    | .error _ => none

theorem toList_mk (l : List Char) : (String.mk l).toList = l := rfl

theorem mk_toList (s : String) : String.mk s.toList = s := rfl

theorem mk_data (s : String) : String.mk s.data = s := rfl

theorem runSplitGo_all_not (p : Char → Bool) :
    ∀ (l acc : List Char), l.all (fun c => !p c) = true →
      runSplitGo p l acc false = [acc.reverse ++ l] := by
  intro l
  induction l with
  | nil => intro acc _; simp [runSplitGo]
  | cons c cs ih =>
    intro acc h
    simp only [List.all_cons, Bool.and_eq_true, Bool.not_eq_true'] at h
    simp [runSplitGo, h.1, ih (c :: acc) (by simpa using h.2)]

theorem kvRegexSplit_no_sep (pair : String)
    (h : pair.toList.all (fun c => !isKVSep c) = true) :
    kvRegexSplit pair = [pair] := by
  unfold kvRegexSplit
  rw [runSplitGo_all_not isKVSep pair.toList [] h]
  simp [mk_toList]

/-- A claim theorem helper: `dictPair` yields the structural error exactly
when the separator split does not have two parts. -/
theorem dictPair_structural {α : Type}
    (vals : List (String × (String → Except String α))) (pair : String) :
    ((kvRegexSplit pair).length ≠ 2 →
      dictPair vals pair = .error (.structural pair)) ∧
    ((kvRegexSplit pair).length = 2 →
      dictPair vals pair ≠ .error (.structural pair)) := by
  constructor
  · intro hlen
    unfold dictPair
    match hs : kvRegexSplit pair with
    | [] => rfl
    | [_] => rfl
    | [k, v] => rw [hs] at hlen; simp at hlen
    | _ :: _ :: _ :: _ => rfl
  · intro hlen
    unfold dictPair
    match hs : kvRegexSplit pair with
    | [] => rw [hs] at hlen; simp at hlen
    | [_] => rw [hs] at hlen; simp at hlen
    | [k, v] =>
      cases hl : assocLookup k vals with
      | none => simp [hl]
      | some conv => cases hc : conv v <;> simp [hl, hc]
    | a :: b :: c :: rest => rw [hs] at hlen; simp at hlen

/-- C1: the claim says Bool conversion is total and never fails, returning
true iff the lowercased input is one of the four truthy tokens.  The code
contradicts its own docstring ("Convert string to bool"): the second
`__init__` definition shadows the first, so `true_vals` is never assigned
and the only conversion path raises an `AttributeError` for every input
string; the class does not even have a `convert` method. -/
theorem bool_conversion_always_raises :
    ∀ val : String, boolConvert val = .error boolAttrError :=
  fun _ => rfl

/-- C2 counterexample: the claim says a token is split on the FIRST run of
`:` or `=` characters, so that `a:b:c` yields key `a` and value `b:c`.
The code splits on EVERY run (`re.split` on the pattern of separator runs)
and then unpacks exactly two parts, so the three-part token `a:b:c` raises
`ValueError` and the conversion fails instead of succeeding. -/
theorem dict_first_run_counterexample :
    (dictConvert "d" [("a", strConvert)] "a:b:c").result =
      .error (failFmt "a:b:c" "dict" "d") ∧
    (dictConvert "d" [("a", strConvert)] "a:b:c").result ≠
      .ok [("a", "b:c")] := by
  constructor
  · rfl
  · intro h
    rw [show (dictConvert "d" [("a", strConvert)] "a:b:c").result =
      .error (failFmt "a:b:c" "dict" "d") from rfl] at h
    exact Except.noConfusion h

/-- C2 amended: each token is split on every run of `:` or `=` characters;
the conversion fails with the structural error exactly when that split does
not have exactly two parts (in particular when no separator run exists at
all); and when the same key occurs in several tokens the conversion does
not fail: a warning recording the overwritten value is emitted and the
last-seen value wins in the result mapping. -/
theorem dict_split_and_overwrite (α : Type)
    (vals : List (String × (String → Except String α))) :
    (∀ pair : String, pair.toList.all (fun c => !isKVSep c) = true →
      dictPair vals pair = .error (.structural pair)) ∧
    (∀ pair : String, (kvRegexSplit pair).length ≠ 2 →
      dictPair vals pair = .error (.structural pair)) ∧
    (∀ pair : String, (kvRegexSplit pair).length = 2 →
      dictPair vals pair ≠ .error (.structural pair)) ∧
    (∀ (t1 t2 k r1 r2 : String) (conv : String → Except String α)
      (v1 v2 : α),
      kvRegexSplit t1 = [k, r1] → kvRegexSplit t2 = [k, r2] →
      assocLookup k vals = some conv → conv r1 = .ok v1 → conv r2 = .ok v2 →
      dictGo vals [t1, t2] [] [] = ([(k, v2, v1)], .ok [(k, v2)])) := by
  refine ⟨?_, ?_, ?_, ?_⟩
  · intro pair h
    have := kvRegexSplit_no_sep pair h
    exact (dictPair_structural vals pair).1 (by rw [this]; simp)
  · intro pair h
    exact (dictPair_structural vals pair).1 h
  · intro pair h
    exact (dictPair_structural vals pair).2 h
  · intro t1 t2 k r1 r2 conv v1 v2 h1 h2 hl hc1 hc2
    simp [dictGo, dictPair, h1, h2, hl, hc1, hc2, assocLookup, assocInsert]

/-- C2 witness: a token with no separator fails structurally; a three-run
count check; and the duplicate key `a` across the tokens of `a:1 a=2` warns
once and keeps the last value. -/
theorem dict_split_and_overwrite_witness :
    dictPair [("a", strConvert)] "abc" = .error (.structural "abc") ∧
    dictPair [("a", strConvert)] "a:1" ≠ .error (.structural "a:1") ∧
    dictGo [("a", strConvert)] ["a:1", "a=2"] [] [] =
      ([("a", "2", "1")], .ok [("a", "2")]) :=
  ⟨(dict_split_and_overwrite String [("a", strConvert)]).1 "abc" (by decide),
   (dict_split_and_overwrite String [("a", strConvert)]).2.2.1 "a:1" (by decide),
   (dict_split_and_overwrite String [("a", strConvert)]).2.2.2 "a:1" "a=2"
     "a" "1" "2" strConvert "1" "2" (by decide) (by decide) rfl rfl rfl⟩

/-- C6: the claim says conversion has no side effect other than the File
converter's filesystem open and the Dict converter's overwrite warning, and
the base class docstring agrees ("The call method should have no side
effects").  But `Dict.convert` begins with a bare `print(val)`, so every
Dict conversion writes the raw input string to standard output. -/
theorem dict_convert_prints_input :
    ∀ (α : Type) (description : String)
      (vals : List (String × (String → Except String α))) (val : String),
      (dictConvert description vals val).printed = [val] ∧
      (dictConvert description vals val).printed ≠ [] := by
  intro α description vals val
  have hp : (dictConvert description vals val).printed = [val] := by
    unfold dictConvert
    rcases hg : dictGo vals (listRegexFindall val) [] [] with ⟨warns, r⟩
    cases r with
    | ok obj => simp
    | error e => cases e <;> simp
  exact ⟨hp, by rw [hp]; simp⟩

/-- C5: the File converter in read mode fails with the descriptive error
when the target path does not exist (the `IOError` of the underlying open
is caught and re-raised through `Type.fail`), and returns the open handle
when the path exists and is readable.  The filesystem is modelled as the
partial map `fs` from paths to handles, defined exactly on the paths that
exist and are readable. -/
theorem file_read_mode_spec (η : Type) (fs : String → Option η)
    (path : String) :
    (fs path = none →
      fileConvert fs (fileModeDescr "r") path =
        .error (failFmt path "file" "Must be a readable file")) ∧
    (∀ h, fs path = some h →
      fileConvert fs (fileModeDescr "r") path = .ok h) := by
  constructor
  · intro hmiss
    unfold fileConvert
    rw [hmiss]
    rfl
  · intro h hhit
    unfold fileConvert
    rw [hhit]

/-- C5 witness: on a filesystem where only the path `present` is readable,
the read-mode File converter fails on `missing` and succeeds on
`present`. -/
theorem file_read_mode_spec_witness :
    fileConvert (fun p => if p = "present" then some 0 else none)
        (fileModeDescr "r") "missing" =
      .error (failFmt "missing" "file" "Must be a readable file") ∧
    fileConvert (fun p => if p = "present" then some (0 : Nat) else none)
        (fileModeDescr "r") "present" = .ok 0 :=
  ⟨(file_read_mode_spec Nat (fun p => if p = "present" then some 0 else none)
      "missing").1 (by decide),
   (file_read_mode_spec Nat (fun p => if p = "present" then some 0 else none)
      "present").2 0 (by decide)⟩

theorem orTry_first {α : Type} (val : String) :
    ∀ (bs : List (OrBranch α)) (i : Nat) (h : i < bs.length) (r : α),
      (bs.get ⟨i, h⟩).conv val = .ok r →
      (∀ j (hj : j < i),
        ∃ e, (bs.get ⟨j, Nat.lt_trans hj h⟩).conv val = .error e) →
      orTry val bs = some r := by
  intro bs
  induction bs with
  | nil => intro i h; exact absurd h (by simp)
  | cons b bs ih =>
    intro i h r hok hfail
    cases i with
    | zero =>
      simp only [List.get] at hok
      simp [orTry, hok]
    | succ i' =>
      obtain ⟨e, he⟩ := hfail 0 (Nat.succ_pos i')
      simp only [List.get] at he
      have hrest := ih i' (Nat.lt_of_succ_lt_succ h) r hok
        (fun j hj => by
          obtain ⟨e', he'⟩ := hfail (j + 1) (Nat.succ_lt_succ hj)
          exact ⟨e', he'⟩)
      simp [orTry, he, hrest]

theorem orTry_none {α : Type} (val : String) :
    ∀ bs : List (OrBranch α),
      (∀ b ∈ bs, ∃ e, b.conv val = .error e) → orTry val bs = none := by
  intro bs
  induction bs with
  | nil => intro _; rfl
  | cons b bs ih =>
    intro hall
    obtain ⟨e, he⟩ := hall b (by simp)
    simp [orTry, he, ih (fun b' hb' => hall b' (by simp [hb']))]

/-- C4: Or conversion returns the result of the first branch that succeeds
(first match wins: any branch preceded only by failing branches determines
the result), and when every branch fails it fails with the message built
from all branch descriptions joined by " or ". -/
theorem or_first_match_wins :
    (∀ (α : Type) (bs : List (OrBranch α)) (val : String) (i : Nat)
      (h : i < bs.length) (r : α),
      (bs.get ⟨i, h⟩).conv val = .ok r →
      (∀ j (hj : j < i),
        ∃ e, (bs.get ⟨j, Nat.lt_trans hj h⟩).conv val = .error e) →
      orConvert bs val = .ok r) ∧
    (∀ (α : Type) (bs : List (OrBranch α)) (val : String),
      (∀ b ∈ bs, ∃ e, b.conv val = .error e) →
      orConvert bs val =
        .error (failFmt val (orName bs) ("Must be " ++ orDescription bs))) := by
  constructor
  · intro α bs val i h r hok hfail
    unfold orConvert
    rw [orTry_first val bs i h r hok hfail]
  · intro α bs val hall
    unfold orConvert
    rw [orTry_none val bs hall]

/-- C4 witness: with branches int then str, the input `7` is taken by the
first branch even though the second would also match, and with two keyword
branches an unmatched input fails with both descriptions joined. -/
theorem or_first_match_wins_witness :
    orConvert [⟨fun s => (intConvert none none s).map Sum.inl, "int", "int"⟩,
               ⟨fun s => (strConvert s).map Sum.inr, "str", "str"⟩] "7" =
      .ok (Sum.inl (7 : Int)) ∧
    orConvert [⟨fun v => if v = "yes" then .ok true else .error "no match",
                "yes", "Keyword(yes)"⟩,
               ⟨fun v => if v = "no" then .ok false else .error "no match",
                "no", "Keyword(no)"⟩] "maybe" =
      .error (failFmt "maybe" "yes|no"
        ("Must be " ++ "Keyword(yes) or Keyword(no)")) := by
  constructor
  · exact or_first_match_wins.1 (Sum Int String)
      [⟨fun s => (intConvert none none s).map Sum.inl, "int", "int"⟩,
       ⟨fun s => (strConvert s).map Sum.inr, "str", "str"⟩] "7" 0
      (by decide) (Sum.inl 7) rfl (fun j hj => absurd hj (Nat.not_lt_zero j))
  · have hall : ∀ b ∈ ([⟨fun v => if v = "yes" then .ok true
          else .error "no match", "yes", "Keyword(yes)"⟩,
        ⟨fun v => if v = "no" then .ok false else .error "no match",
          "no", "Keyword(no)"⟩] : List (OrBranch Bool)),
        ∃ e, b.conv "maybe" = .error e := by
      intro b hb
      simp only [List.mem_cons, List.not_mem_nil, or_false] at hb
      rcases hb with rfl | rfl
      · exact ⟨"no match", rfl⟩
      · exact ⟨"no match", rfl⟩
    exact or_first_match_wins.2 Bool _ "maybe" hall

/-- C9: Or construction flattens nested Or branches: `Or(Or(a,b), c)` is
the same converter value (same ordered `types` list) as `Or(a,b,c)`, and
when every argument is itself flat (as every value constructed through
`Or.__init__` is), the constructed Or has no Or as a direct branch. -/
theorem or_flattening :
    (∀ a b c : PyTy, mkOr [mkOr [a, b], c] = mkOr [a, b, c]) ∧
    (∀ ts : List PyTy, (∀ t ∈ ts, flatOr t = true) →
      flatOr (mkOr ts) = true) := by
  constructor
  · intro a b c
    simp [mkOr, orFlatten]
  · intro ts hts
    show (orFlatten ts).all (fun b => !isOrTy b) = true
    rw [List.all_eq_true]
    intro b hb
    rw [orFlatten, List.mem_flatMap] at hb
    obtain ⟨t, ht, hbt⟩ := hb
    have hflat := hts t ht
    cases t with
    | orT bs =>
      simp only at hbt
      have : bs.all (fun x => !isOrTy x) = true := hflat
      rw [List.all_eq_true] at this
      exact this b hbt
    | keyword key => simp_all [isOrTy]
    | strT => simp_all [isOrTy]
    | boolT => simp_all [isOrTy]
    | intT mn mx => simp_all [isOrTy]
    | setT inner => simp_all [isOrTy]
    | listT inner => simp_all [isOrTy]
    | dictT fields => simp_all [isOrTy]
    | fileT mode => simp_all [isOrTy]

/-- C9 witness: flattening two concrete keyword converters under a nested
Or gives the same value as the flat constructor call, and a constructor
call on flat arguments is flat. -/
theorem or_flattening_witness :
    mkOr [mkOr [PyTy.keyword "a", PyTy.keyword "b"], PyTy.strT] =
      mkOr [PyTy.keyword "a", PyTy.keyword "b", PyTy.strT] ∧
    flatOr (mkOr [mkOr [PyTy.keyword "a", PyTy.keyword "b"],
      PyTy.strT]) = true :=
  ⟨or_flattening.1 (PyTy.keyword "a") (PyTy.keyword "b") PyTy.strT,
   or_flattening.2 [mkOr [PyTy.keyword "a", PyTy.keyword "b"], PyTy.strT]
     (by
       intro t ht
       simp only [List.mem_cons, List.not_mem_nil, or_false] at ht
       rcases ht with rfl | rfl
       · rfl
       · rfl)⟩

theorem splitChars_ne_nil (p : Char → Bool) :
    ∀ l : List Char, splitChars p l ≠ [] := by
  intro l
  induction l with
  | nil => simp [splitChars]
  | cons c cs ih =>
    by_cases hc : p c
    · simp [splitChars, hc]
    · simp only [splitChars, hc, if_false]
      match hs : splitChars p cs with
      | [] => exact absurd hs ih
      | t :: ts => simp

theorem splitChars_cons_neg (p : Char → Bool) (a : Char) (as t : List Char)
    (ts : List (List Char)) (h1 : p a = false) (h2 : splitChars p as = t :: ts) :
    splitChars p (a :: as) = (a :: t) :: ts := by
  simp [splitChars, h1, h2]

theorem splitChars_no_sep (p : Char → Bool) :
    ∀ (l : List Char) (seg : List Char), seg ∈ splitChars p l →
      ∀ c ∈ seg, p c = false := by
  intro l
  induction l with
  | nil =>
    intro seg hseg c hc
    simp [splitChars] at hseg
    subst hseg
    simp at hc
  | cons a as ih =>
    intro seg hseg c hc
    cases ha : p a with
    | true =>
      simp only [splitChars, ha, if_true, List.mem_cons] at hseg
      rcases hseg with rfl | hseg
      · simp at hc
      · exact ih seg hseg c hc
    | false =>
      obtain ⟨t, ts, hs⟩ : ∃ t ts, splitChars p as = t :: ts := by
        match hts : splitChars p as with
        | [] => exact absurd hts (splitChars_ne_nil p as)
        | x :: xs => exact ⟨x, xs, rfl⟩
      rw [splitChars_cons_neg p a as t ts ha hs, List.mem_cons] at hseg
      rcases hseg with rfl | hseg
      · rcases List.mem_cons.mp hc with rfl | hct
        · exact ha
        · exact ih t (by rw [hs]; simp) c hct
      · exact ih seg (by rw [hs]; simp [hseg]) c hc

theorem splitChars_all_sep (p : Char → Bool) :
    ∀ l : List Char, l.all p = true →
      (splitChars p l).filter (fun seg => !seg.isEmpty) = [] := by
  intro l
  induction l with
  | nil => simp [splitChars]
  | cons c cs ih =>
    intro h
    simp only [List.all_cons, Bool.and_eq_true] at h
    simp [splitChars, h.1, List.filter, ih h.2]

/-- Every token produced by `list_regex.findall` is a nonempty run of
non-separator characters. -/
theorem listRegexFindall_tokens (val : String) :
    ∀ tok ∈ listRegexFindall val,
      tok.toList ≠ [] ∧ ∀ c ∈ tok.toList, isListSep c = false := by
  intro tok htok
  unfold listRegexFindall at htok
  rw [List.mem_map] at htok
  obtain ⟨seg, hseg, rfl⟩ := htok
  rw [List.mem_filter] at hseg
  obtain ⟨hmem, hne⟩ := hseg
  refine ⟨?_, ?_⟩
  · rw [toList_mk]
    intro hnil
    rw [hnil] at hne
    simp at hne
  · rw [toList_mk]
    exact splitChars_no_sep isListSep val.toList seg hmem

/-- A string of separator characters only has no tokens. -/
theorem listRegexFindall_all_sep (val : String)
    (h : val.toList.all isListSep = true) : listRegexFindall val = [] := by
  unfold listRegexFindall
  rw [splitChars_all_sep isListSep val.toList h]
  rfl

theorem listConvertTokens_of_results {α : Type}
    (typ : String → Except String α) :
    ∀ (ks : List String) (vs : List α), tokenResults typ ks = some vs →
      ∀ acc : List α, listConvertTokens typ ks acc = .ok (acc.reverse ++ vs) := by
  intro ks
  induction ks with
  | nil =>
    intro vs hvs acc
    simp only [tokenResults, Option.some_inj] at hvs
    subst hvs
    simp [listConvertTokens]
  | cons k ks ih =>
    intro vs hvs acc
    unfold tokenResults at hvs
    cases hk : typ k with
    | ok v =>
      rw [hk] at hvs
      simp only [Option.map_eq_some'] at hvs
      obtain ⟨vs', hvs', rfl⟩ := hvs
      simp only [listConvertTokens, hk]
      rw [ih vs' hvs' (v :: acc)]
      simp
    | error e => rw [hk] at hvs; simp at hvs

theorem listConvertTokens_of_fail {α : Type}
    (typ : String → Except String α) :
    ∀ ks : List String, tokenResults typ ks = none →
      ∀ acc : List α, ∃ e, listConvertTokens typ ks acc = .error e := by
  intro ks
  induction ks with
  | nil => intro h; simp [tokenResults] at h
  | cons k ks ih =>
    intro h acc
    unfold tokenResults at h
    cases hk : typ k with
    | ok v =>
      rw [hk] at h
      simp only [Option.map_eq_none'] at h
      obtain ⟨e, he⟩ := ih h (v :: acc)
      exact ⟨e, by simp only [listConvertTokens, hk]; exact he⟩
    | error e => exact ⟨e, by simp only [listConvertTokens, hk]⟩

theorem setConvertTokens_of_results {α : Type} [DecidableEq α]
    (typ : String → Except String α) :
    ∀ (ks : List String) (vs : List α), tokenResults typ ks = some vs →
      ∀ acc : Finset α,
        setConvertTokens typ ks acc =
          .ok (vs.foldl (fun s v => insert v s) acc) := by
  intro ks
  induction ks with
  | nil =>
    intro vs hvs acc
    simp only [tokenResults, Option.some_inj] at hvs
    subst hvs
    simp [setConvertTokens]
  | cons k ks ih =>
    intro vs hvs acc
    unfold tokenResults at hvs
    cases hk : typ k with
    | ok v =>
      rw [hk] at hvs
      simp only [Option.map_eq_some'] at hvs
      obtain ⟨vs', hvs', rfl⟩ := hvs
      simp only [setConvertTokens, hk]
      rw [ih vs' hvs' (insert v acc)]
      simp
    | error e => rw [hk] at hvs; simp at hvs

theorem setConvertTokens_of_fail {α : Type} [DecidableEq α]
    (typ : String → Except String α) :
    ∀ ks : List String, tokenResults typ ks = none →
      ∀ acc : Finset α, ∃ e, setConvertTokens typ ks acc = .error e := by
  intro ks
  induction ks with
  | nil => intro h; simp [tokenResults] at h
  | cons k ks ih =>
    intro h acc
    unfold tokenResults at h
    cases hk : typ k with
    | ok v =>
      rw [hk] at h
      simp only [Option.map_eq_none'] at h
      obtain ⟨e, he⟩ := ih h (insert v acc)
      exact ⟨e, by simp only [setConvertTokens, hk]; exact he⟩
    | error e => exact ⟨e, by simp only [setConvertTokens, hk]⟩

theorem foldl_insert_toFinset {α : Type} [DecidableEq α] :
    ∀ (vs : List α) (acc : Finset α),
      vs.foldl (fun s v => insert v s) acc = acc ∪ vs.toFinset := by
  intro vs
  induction vs with
  | nil => intro acc; simp
  | cons v vs ih =>
    intro acc
    simp only [List.foldl_cons, ih, List.toFinset_cons]
    rw [Finset.insert_union, Finset.union_insert]

theorem tokenResults_of_mem_fail {α : Type} (typ : String → Except String α) :
    ∀ (ks : List String) (tok : String), tok ∈ ks →
      (∀ w, typ tok ≠ .ok w) → tokenResults typ ks = none := by
  intro ks
  induction ks with
  | nil => intro tok htok; simp at htok
  | cons k ks ih =>
    intro tok htok hfail
    rcases List.mem_cons.mp htok with rfl | htok'
    · cases hk : typ tok with
      | ok w => exact absurd hk (hfail w)
      | error e => simp [tokenResults, hk]
    · unfold tokenResults
      cases hk : typ k with
      | ok v => rw [ih tok htok' hfail]; rfl
      | error e => rfl

/-- C8: List and Set conversion tokenize the input into the maximal runs of
non-separator characters (empty tokens discarded), apply the inner
converter to each token, and collect the results in order (List) or as a
deduplicated set (Set); a single failing token fails the whole
conversion. -/
theorem list_set_convert_spec (α : Type) [DecidableEq α]
    (typ : String → Except String α) (name val : String) :
    (∀ tok ∈ listRegexFindall val,
      tok.toList ≠ [] ∧ ∀ c ∈ tok.toList, isListSep c = false) ∧
    (∀ vs : List α, tokenResults typ (listRegexFindall val) = some vs →
      listConvert typ name val = .ok vs ∧
      setConvert typ name val = .ok vs.toFinset) ∧
    (∀ tok ∈ listRegexFindall val, (∀ w, typ tok ≠ .ok w) →
      (∃ e, listConvert typ name val = .error e) ∧
      (∃ e, setConvert typ name val = .error e)) := by
  refine ⟨listRegexFindall_tokens val, ?_, ?_⟩
  · intro vs hvs
    constructor
    · unfold listConvert
      rw [listConvertTokens_of_results typ _ vs hvs []]
      simp
    · unfold setConvert
      rw [setConvertTokens_of_results typ _ vs hvs ∅]
      rw [foldl_insert_toFinset vs ∅, Finset.empty_union]
  · intro tok htok hfail
    have hnone := tokenResults_of_mem_fail typ (listRegexFindall val) tok
      htok hfail
    constructor
    · obtain ⟨e, he⟩ := listConvertTokens_of_fail typ _ hnone []
      exact ⟨_, by unfold listConvert; rw [he]⟩
    · obtain ⟨e, he⟩ := setConvertTokens_of_fail typ _ hnone ∅
      exact ⟨_, by unfold setConvert; rw [he]⟩

/-- C8 witness: with the Int converter inside, the list input `1,2;3 4`
converts to the ordered sequence 1,2,3,4 and the set input `1,1,2`
deduplicates; the input `1,x` has a failing token so both conversions
fail. -/
theorem list_set_convert_spec_witness :
    listConvert (intConvert none none) "list(<int>)" "1,2;3 4" =
      .ok [(1 : Int), 2, 3, 4] ∧
    setConvert (intConvert none none) "set(<int>)" "1,1,2" =
      .ok ([(1 : Int), 1, 2].toFinset) ∧
    (∃ e, listConvert (intConvert none none) "list(<int>)" "1,x" =
      .error e) := by
  refine ⟨?_, ?_, ?_⟩
  · exact ((list_set_convert_spec Int (intConvert none none) "list(<int>)"
      "1,2;3 4").2.1 [1, 2, 3, 4] (by decide)).1
  · exact ((list_set_convert_spec Int (intConvert none none) "set(<int>)"
      "1,1,2").2.1 [1, 1, 2] (by decide)).2
  · exact ((list_set_convert_spec Int (intConvert none none) "list(<int>)"
      "1,x").2.2 "x" (by decide)
      (by
        intro w hw
        rw [show intConvert none none "x" =
          Except.error (failFmt "x" "int" (intErrorMessage none none))
          from rfl] at hw
        exact Except.noConfusion hw)).1

/-- C10: an input that is empty or consists only of separator characters
tokenizes to nothing, so for every inner converter List conversion returns
the empty list, Set conversion the empty set, and Dict conversion the empty
mapping with no warnings, all without error. -/
theorem separator_only_empty_result (α : Type) [DecidableEq α] (s : String)
    (hsep : s.toList.all isListSep = true) :
    (∀ (typ : String → Except String α) (name : String),
      listConvert typ name s = .ok [] ∧ setConvert typ name s = .ok ∅) ∧
    (∀ (description : String)
      (vals : List (String × (String → Except String α))),
      (dictConvert description vals s).result = .ok [] ∧
      (dictConvert description vals s).warnings = []) := by
  have htok := listRegexFindall_all_sep s hsep
  constructor
  · intro typ name
    constructor
    · unfold listConvert
      rw [htok]
      rfl
    · unfold setConvert
      rw [htok]
      rfl
  · intro description vals
    unfold dictConvert
    rw [htok]
    exact ⟨rfl, rfl⟩

/-- C10 witness: the empty string and a separator-only string both convert
to empty collections with the Int converter inside, and to the empty
mapping for a Dict with one validator. -/
theorem separator_only_empty_result_witness :
    listConvert (intConvert none none) "list(<int>)" "" = .ok [] ∧
    setConvert (intConvert none none) "set(<int>)" " ,; " = .ok ∅ ∧
    (dictConvert "d" [("a", intConvert none none)] ",, ;").result =
      .ok [] := by
  refine ⟨?_, ?_, ?_⟩
  · exact ((separator_only_empty_result Int "" (by decide)).1
      (intConvert none none) "list(<int>)").1
  · exact ((separator_only_empty_result Int " ,; " (by decide)).1
      (intConvert none none) "set(<int>)").2
  · exact ((separator_only_empty_result Int ",, ;" (by decide)).2
      "d" [("a", intConvert none none)]).1

/-- Value of a little-endian decimal digit list. -/
def ofDigitsLE (l : List Nat) : Nat := l.foldr (fun d r => d + 10 * r) 0

theorem ofDigitsLE_cons (d : Nat) (l : List Nat) :
    ofDigitsLE (d :: l) = d + 10 * ofDigitsLE l := rfl

theorem decDigitsRev_value :
    ∀ (fuel n : Nat), n ≤ fuel → ofDigitsLE (decDigitsRev fuel n) = n := by
  intro fuel
  induction fuel with
  | zero =>
    intro n h
    have : n = 0 := Nat.le_zero.mp h
    subst this
    rfl
  | succ f ih =>
    intro n h
    by_cases hn : n = 0
    · subst hn; rfl
    · rw [show decDigitsRev (f + 1) n = (n % 10) :: decDigitsRev f (n / 10)
        from by simp [decDigitsRev, hn]]
      rw [ofDigitsLE_cons, ih (n / 10) (by omega)]
      omega

theorem decDigitsRev_lt :
    ∀ (fuel n d : Nat), d ∈ decDigitsRev fuel n → d < 10 := by
  intro fuel
  induction fuel with
  | zero => intro n d h; simp [decDigitsRev] at h
  | succ f ih =>
    intro n d h
    by_cases hn : n = 0
    · subst hn; simp [decDigitsRev] at h
    · rw [show decDigitsRev (f + 1) n = (n % 10) :: decDigitsRev f (n / 10)
        from by simp [decDigitsRev, hn], List.mem_cons] at h
      rcases h with rfl | h
      · omega
      · exact ih (n / 10) d h

theorem digitChar_facts (d : Nat) (hd : d < 10) :
    (Nat.digitChar d).isDigit = true ∧ charDigit (Nat.digitChar d) = d ∧
    Nat.digitChar d ≠ '-' ∧ Nat.digitChar d ≠ '+' := by
  interval_cases d <;> refine ⟨by decide, by decide, by decide, by decide⟩

theorem foldl_map_digitChar :
    ∀ (l : List Nat) (a : Nat), (∀ d ∈ l, d < 10) →
      List.foldl (fun acc c => 10 * acc + charDigit c) a (l.map Nat.digitChar) =
        List.foldl (fun acc d => 10 * acc + d) a l := by
  intro l
  induction l with
  | nil => intro a _; rfl
  | cons d ds ih =>
    intro a h
    have hd := h d (by simp)
    simp only [List.map_cons, List.foldl_cons, (digitChar_facts d hd).2.1]
    exact ih _ (fun d' hd' => h d' (by simp [hd']))

theorem foldl_reverse_ofDigitsLE :
    ∀ l : List Nat,
      List.foldl (fun acc d => 10 * acc + d) 0 l.reverse = ofDigitsLE l := by
  intro l
  induction l with
  | nil => rfl
  | cons d ds ih =>
    rw [List.reverse_cons, List.foldl_append, ih, ofDigitsLE_cons]
    simp [Nat.add_comm]

theorem natStrChars_all_digit (n : Nat) :
    ∀ c ∈ natStrChars n, c.isDigit = true := by
  intro c hc
  unfold natStrChars at hc
  by_cases hn : n = 0
  · rw [if_pos hn] at hc
    simp at hc
    subst hc
    decide
  · rw [if_neg hn] at hc
    rw [List.mem_map] at hc
    obtain ⟨d, hd, rfl⟩ := hc
    rw [List.mem_reverse] at hd
    exact (digitChar_facts d (decDigitsRev_lt n n d hd)).1

theorem natStrChars_ne_nil (n : Nat) : natStrChars n ≠ [] := by
  unfold natStrChars
  by_cases hn : n = 0
  · rw [if_pos hn]; simp
  · rw [if_neg hn]
    obtain ⟨f, hf⟩ := Nat.exists_eq_succ_of_ne_zero hn
    subst hf
    simp [decDigitsRev]

theorem parseDecMag_natStrChars (n : Nat) :
    parseDecMag (natStrChars n) = some n := by
  have hne : (natStrChars n).isEmpty = false := by
    cases h : natStrChars n with
    | nil => exact absurd h (natStrChars_ne_nil n)
    | cons c cs => rfl
  have hall : (natStrChars n).all Char.isDigit = true := by
    rw [List.all_eq_true]
    exact natStrChars_all_digit n
  unfold parseDecMag
  rw [hne, hall]
  simp only [Bool.false_eq_true, if_false, if_true]
  by_cases hn : n = 0
  · subst hn; rfl
  · unfold natStrChars
    rw [if_neg hn]
    rw [foldl_map_digitChar _ 0
      (fun d hd => decDigitsRev_lt n n d (List.mem_reverse.mp hd))]
    rw [foldl_reverse_ofDigitsLE, decDigitsRev_value n n (Nat.le_refl n)]

theorem isDigit_ne_minus {c : Char} (h : c.isDigit = true) : c ≠ '-' := by
  intro heq
  subst heq
  exact absurd h (by decide)

theorem isDigit_ne_plus {c : Char} (h : c.isDigit = true) : c ≠ '+' := by
  intro heq
  subst heq
  exact absurd h (by decide)

theorem parseSigned_cons (mag : List Char → Option Nat) (c : Char)
    (rest : List Char) :
    parseSigned mag (c :: rest) =
      if c = '-' then (mag rest).map (fun n => -(Int.ofNat n))
      else if c = '+' then (mag rest).map (fun n => Int.ofNat n)
      else (mag (c :: rest)).map (fun n => Int.ofNat n) := rfl

theorem pyIntDec_pyStr (v : Int) : pyIntDec (pyStr v) = some v := by
  by_cases hv : v < 0
  · unfold pyIntDec pyStr
    rw [if_pos hv, toList_mk]
    rw [parseSigned_cons, if_pos rfl, parseDecMag_natStrChars]
    simp only [Option.map_some']
    congr 1
    simp only [Int.ofNat_eq_coe]
    omega
  · unfold pyIntDec pyStr
    rw [if_neg hv, toList_mk]
    obtain ⟨c, cs, hcs⟩ : ∃ c cs, natStrChars v.natAbs = c :: cs := by
      cases h : natStrChars v.natAbs with
      | nil => exact absurd h (natStrChars_ne_nil v.natAbs)
      | cons c cs => exact ⟨c, cs, rfl⟩
    have hdig : c.isDigit = true :=
      natStrChars_all_digit v.natAbs c (by rw [hcs]; simp)
    rw [hcs, parseSigned_cons, if_neg (isDigit_ne_minus hdig),
      if_neg (isDigit_ne_plus hdig), ← hcs, parseDecMag_natStrChars]
    simp only [Option.map_some']
    congr 1
    simp only [Int.ofNat_eq_coe]
    omega

theorem intUnderlying_pyStr (v : Int) : intUnderlying (pyStr v) = some v := by
  unfold intUnderlying
  rw [pyIntDec_pyStr]

theorem intOutOfRange_false (minval maxval : Option Int) (v : Int)
    (h1 : ∀ mn, minval = some mn → mn ≤ v)
    (h2 : ∀ mx, maxval = some mx → v < mx) :
    intOutOfRange minval maxval v = false := by
  unfold intOutOfRange
  rcases minval with _ | mn <;> rcases maxval with _ | mx
  · rfl
  · have := h2 mx rfl
    simp only [Bool.or_eq_false_iff, decide_eq_false_iff_not]
    exact ⟨trivial, by omega⟩
  · have := h1 mn rfl
    simp only [Bool.or_eq_false_iff, decide_eq_false_iff_not]
    exact ⟨by omega, trivial⟩
  · have ha := h1 mn rfl
    have hb := h2 mx rfl
    simp only [Bool.or_eq_false_iff, decide_eq_false_iff_not]
    exact ⟨by omega, by omega⟩

/-- C3: for all optional bounds and every integer in range, Int conversion
of the decimal string form succeeds and returns exactly that integer (lower
bound inclusive, upper bound exclusive); for every integer below the lower
bound or at or above the upper bound it fails. -/
theorem int_range_roundtrip (minval maxval : Option Int) (v : Int) :
    ((∀ mn, minval = some mn → mn ≤ v) → (∀ mx, maxval = some mx → v < mx) →
      intConvert minval maxval (pyStr v) = .ok v) ∧
    (((∃ mn, minval = some mn ∧ v < mn) ∨ (∃ mx, maxval = some mx ∧ mx ≤ v)) →
      ∃ e, intConvert minval maxval (pyStr v) = .error e) := by
  have hconv : intConvert minval maxval (pyStr v) =
      if intOutOfRange minval maxval v then
        .error (failFmt (pyStr v) "int" (intErrorMessage minval maxval))
      else .ok v := by
    unfold intConvert
    rw [intUnderlying_pyStr v]
  constructor
  · intro h1 h2
    rw [hconv, intOutOfRange_false minval maxval v h1 h2]
    rfl
  · intro hout
    rw [hconv]
    have : intOutOfRange minval maxval v = true := by
      unfold intOutOfRange
      rcases hout with ⟨mn, hmn, hlt⟩ | ⟨mx, hmx, hge⟩
      · subst hmn
        simp only [Bool.or_eq_true, decide_eq_true_eq]
        exact Or.inl hlt
      · subst hmx
        rcases minval with _ | mn <;>
          simp only [Bool.or_eq_true, decide_eq_true_eq] <;>
          exact Or.inr (by omega)
    rw [this, if_pos rfl]
    exact ⟨_, rfl⟩

/-- C3 witness: with bounds 0 and 10, the in-range value 3 round-trips
through its decimal string and the out-of-range value 12 fails. -/
theorem int_range_roundtrip_witness :
    intConvert (some 0) (some 10) (pyStr 3) = .ok 3 ∧
    (∃ e, intConvert (some 0) (some 10) (pyStr 12) = .error e) :=
  ⟨(int_range_roundtrip (some 0) (some 10) 3).1
     (fun mn hmn => by cases hmn; decide) (fun mx hmx => by cases hmx; decide),
   (int_range_roundtrip (some 0) (some 10) 12).2
     (Or.inr ⟨10, rfl, by decide⟩)⟩

/-- C7: Int conversion parses the raw string as base 10 and, exactly when
that parse fails, retries it as base 16; in particular the unbounded Int
converter maps the string 0x1A to 26. -/
theorem int_hex_fallback :
    (∀ (s : String) (v : Int), pyIntDec s = some v →
      intConvert none none s = .ok v) ∧
    (∀ (s : String) (v : Int), pyIntDec s = none → pyIntHex s = some v →
      intConvert none none s = .ok v) ∧
    intConvert none none "0x1A" = .ok 26 := by
  refine ⟨?_, ?_, rfl⟩
  · intro s v h
    unfold intConvert intUnderlying
    rw [h]
    rfl
  · intro s v h1 h2
    unfold intConvert intUnderlying
    rw [h1, h2]
    rfl

/-- C7 witness: the string 0x10 fails the decimal parse and converts to 16
through the hexadecimal fallback. -/
theorem int_hex_fallback_witness : intConvert none none "0x10" = .ok 16 :=
  int_hex_fallback.2.1 "0x10" 16 rfl rfl

end Terseparse
